import Mathlib

/-!
Verification development for the codeloom repository (src/brain.py and
src/process.py): a shallow embedding of the streaming protocol decoder,
the stream session driver, and the background job supervisor, together
with theorems settling the specification claims about them.

Modelling conventions:
* Python strings are Lean `String`s; Python slicing `s[:n]` over code
  points is `strTake s n` (a take on the underlying character list).
* Python dicts that the code uses as ordered id -> record maps are
  association lists with unique keys, in insertion order (`alookup`,
  `aset`, deletion by `List.filter`), matching CPython dict semantics.
* OS-level facts (which pids are alive, which process groups were sent
  SIGTERM) are carried explicitly in the supervisor state, so that
  `os.kill(pid, 0)` probes and `os.killpg` successes/failures are
  deterministic functions of the state.
* `datetime.now()` results are passed in as explicit string parameters.
-/

namespace Codeloom

/-- Python `s[:n]` on a string: first `n` characters. -/
def strTake (s : String) (n : Nat) : String := ⟨s.data.take n⟩

/-- `StreamEvent` from src/brain.py: one chunk of streamed output. -/
structure StreamEvent where
  text : String
  is_tool_call : Bool := false
  is_error : Bool := false
  is_done : Bool := false
deriving DecidableEq, Repr

/-- The tool-input fields `_format_tool_use` reads from the `input` dict
(absent keys default to `""`, as with `dict.get(k, "")`). -/
structure ToolInput where
  file_path : String := ""
  content : String := ""
  old_string : String := ""
  command : String := ""
  pattern : String := ""
deriving DecidableEq, Repr

/-- A content block inside an `assistant` message record. -/
inductive MsgBlock where
  | textBlock (text : String)
  | toolUse (name : String) (input : ToolInput)
  | otherBlock (ty : String)
deriving DecidableEq, Repr

/-- A content block inside a `user` message record. -/
inductive UserBlock where
  | toolResult (content : String)
  | otherBlock (ty : String)
deriving DecidableEq, Repr

/-- A parsed line-delimited protocol record, as dispatched on the `type`
discriminant by `ClaudeBrain._parse_stream_event`.  The `other`
constructor stands for any record whose discriminant is none of the nine
dispatched kinds; it carries the discriminant and the record's JSON
serialization (`json.dumps(event)`).  Payload fields are typed as the
code expects them (the code's behaviour on ill-typed payloads is outside
this model, except for non-object JSON lines, see `RawLine.jsonScalar`). -/
inductive ProtoRecord where
  | assistantMsg (blocks : List MsgBlock)
  | contentBlockStart (blockType : String) (toolName : String)
  | contentBlockDelta (deltaType : String) (text : String)
  | contentBlockStop
  | toolUseEvt (toolName : String) (input : ToolInput)
  | toolResultEvt (content : String)
  | userMsg (blocks : List UserBlock)
  | systemMsg (message : String) (subtype : String)
  | resultEvt (result : String) (subtype : String)
  | other (ty : String) (serialized : String)
deriving DecidableEq, Repr

/-- `ClaudeBrain._format_tool_use`. -/
def formatToolUse (toolName : String) (inp : ToolInput) : List StreamEvent :=
  if toolName = "Write" then
    let lines := if inp.content = "" then 0 else inp.content.data.count '\n' + 1
    [{ text := "📝 Writing " ++ inp.file_path ++ " (" ++ toString lines ++ " lines)\n",
       is_tool_call := true }]
  else if toolName = "Edit" then
    [{ text := "✏️  Editing " ++ inp.file_path ++ "\n", is_tool_call := true }]
  else if toolName = "Bash" then
    [{ text := "$ " ++ inp.command ++ "\n", is_tool_call := true }]
  else if toolName = "Read" then
    [{ text := "📖 Reading " ++ inp.file_path ++ "\n", is_tool_call := true }]
  else if toolName = "Glob" then
    [{ text := "🔍 Glob " ++ inp.pattern ++ "\n", is_tool_call := true }]
  else if toolName = "Grep" then
    [{ text := "🔍 Grep " ++ inp.pattern ++ "\n", is_tool_call := true }]
  else
    [{ text := "⚙ " ++ toolName ++ "\n", is_tool_call := true }]

/-- Tool-result truncation: `content[:2000] + "\n... (truncated)"` when the
content exceeds 2000 characters. -/
def truncateContent (c : String) : String :=
  if c.length > 2000 then strTake c 2000 ++ "\n... (truncated)" else c

/-- Events for one block of an `assistant` record. -/
def msgBlockEvents : MsgBlock → List StreamEvent
  | .textBlock t => if t = "" then [] else [{ text := t ++ "\n" }]
  | .toolUse n i => formatToolUse n i
  | .otherBlock _ => []

/-- Events for one block of a `user` record. -/
def userBlockEvents : UserBlock → List StreamEvent
  | .toolResult c =>
      if c = "" then []
      else [{ text := "→ " ++ truncateContent c ++ "\n", is_tool_call := true }]
  | .otherBlock _ => []

/-- `ClaudeBrain._parse_stream_event`: the events yielded for one parsed
protocol record. -/
def parseStreamEvent : ProtoRecord → List StreamEvent
  | .assistantMsg blocks => blocks.flatMap msgBlockEvents
  | .contentBlockStart blockType toolName =>
      if blockType = "tool_use" then
        [{ text := "\n⚙ " ++ toolName ++ "\n", is_tool_call := true }]
      else []
  | .contentBlockDelta deltaType t =>
      if deltaType = "text_delta" then
        (if t = "" then [] else [{ text := t }])
      else []
  | .contentBlockStop => [{ text := "\n" }]
  | .toolUseEvt toolName input => formatToolUse toolName input
  | .toolResultEvt c =>
      if c = "" then []
      else [{ text := truncateContent c ++ "\n", is_tool_call := true }]
  | .userMsg blocks => blocks.flatMap userBlockEvents
  | .systemMsg m sub =>
      if m = "" then []
      else [{ text := m ++ "\n", is_tool_call := decide (sub = "tool_use") }]
  | .resultEvt r sub =>
      if sub = "success" then []
      else if r = "" then []
      else [{ text := r ++ "\n" }]
  | .other ty serialized =>
      if ty ≠ "" ∧ ty ≠ "message_start" ∧ ty ≠ "message_delta" ∧ ty ≠ "message_stop" then
        [{ text := "[" ++ ty ++ "] " ++ strTake serialized 200 ++ "\n", is_tool_call := true }]
      else []

/-- One raw line of engine output, as classified by the `send` loop after
`line.strip()`:
* `blank`    - strips to the empty string (skipped by the loop);
* `plain s`  - stripped text `s` (nonempty) that is not valid JSON, so
  `json.loads` raises `JSONDecodeError`;
* `jsonScalar msg` - valid JSON that is not a JSON object (e.g. `123`),
  so `json.loads` succeeds but `event.get` raises `AttributeError`
  (not caught by the `JSONDecodeError` handler); `msg` is `str(e)`;
* `record e` - a JSON object, parsed into a `ProtoRecord`. -/
inductive RawLine where
  | blank
  | plain (s : String)
  | jsonScalar (msg : String)
  | record (e : ProtoRecord)
deriving Repr

/-- The terminal event emitted on normal stream end. -/
def doneEvent : StreamEvent := { text := "", is_done := true }

/-- The terminal event emitted when the interrupt flag is seen mid-loop. -/
def interruptedEvent : StreamEvent := { text := "\n[Interrupted]", is_done := true }

/-- The `_interrupted` flag as observed at checkpoint `k`.  `send` checks
the flag once before each line (checkpoints `0..n-1`) and once after the
stream ends (checkpoint `n`); `iAt = some i` means `interrupt()` ran so
that the flag is first observed true at checkpoint `i`. -/
def interruptedFlag (iAt : Option Nat) (k : Nat) : Bool :=
  match iAt with
  | none => false
  | some i => decide (i ≤ k)

/-- The line-reading loop of `ClaudeBrain.send`, from checkpoint `k`. -/
def sendLoop (iAt : Option Nat) : List RawLine → Nat → List StreamEvent
  | [], k => if interruptedFlag iAt k then [] else [doneEvent]
  | l :: rest, k =>
      if interruptedFlag iAt k then [interruptedEvent]
      else
        match l with
        | .blank => sendLoop iAt rest (k + 1)
        | .plain s => { text := s ++ "\n" } :: sendLoop iAt rest (k + 1)
        | .jsonScalar msg =>
            [{ text := "Error: " ++ msg, is_error := true, is_done := true }]
        | .record e => parseStreamEvent e ++ sendLoop iAt rest (k + 1)

/-- The outcome of `subprocess.Popen` for the engine process. -/
inductive SpawnResult where
  | ok (lines : List RawLine)
  | fileNotFound
  | spawnError (msg : String)
deriving Repr

/-- `ClaudeBrain.send`: the full sequence of events yielded for one
request, as a function of the spawn outcome, the engine's output lines
and the interrupt observation point. -/
def send (sp : SpawnResult) (iAt : Option Nat) : List StreamEvent :=
  match sp with
  | .ok lines => sendLoop iAt lines 0
  | .fileNotFound =>
      [{ text := "Error: 'claude' command not found. Is Claude Code installed?",
         is_error := true, is_done := true }]
  | .spawnError msg =>
      [{ text := "Error: " ++ msg, is_error := true, is_done := true }]

/-! ## Background job supervisor (src/process.py) -/

/-- `ProcessInfo` from src/process.py: one tracked job record. -/
structure ProcInfo where
  id : String
  pid : Nat
  command : String
  started_at : String
  status : String
  exit_code : Option Int := none
  cwd : String := ""
  callback : Bool := false
  reviewed : Bool := false
deriving DecidableEq, Repr

/-- First-match lookup in an association list (CPython dict lookup; the
tracked maps have unique keys). -/
def alookup {α : Type} : List (String × α) → String → Option α
  | [], _ => none
  | (k, v) :: rest, i => if k = i then some v else alookup rest i

/-- Dict update: replaces the value of an existing key in place, appends
a new key at the end (CPython dict insertion-order semantics). -/
def aset {α : Type} : List (String × α) → String → α → List (String × α)
  | [], i, v => [(i, v)]
  | (k, w) :: rest, i, v =>
      if k = i then (i, v) :: rest else (k, w) :: aset rest i v

/-- `ProcessManager` state together with the OS-level facts the code
observes: `processes` is the in-memory dict, `persisted` the on-disk
index (rewritten wholesale by `_save_processes`), `logs` the per-job
output files, `osAlive` the pids currently alive (probed by
`os.kill(pid, 0)` and `os.killpg`), and `signalled` the log of process
groups sent SIGTERM (identified by the job's pid). -/
structure MgrState where
  processes : List (String × ProcInfo)
  persisted : List (String × ProcInfo)
  logs : List (String × String)
  osAlive : List Nat
  signalled : List Nat
deriving Repr

/-- `open(file, "a")` followed by writes: appends, creating the file if
it does not exist. -/
def appendLog (s : MgrState) (i : String) (txt : String) : MgrState :=
  { s with logs := aset s.logs i ((alookup s.logs i).getD "" ++ txt) }

/-- The `"-" * 40` separator line used in log headers and trailers. -/
def dashes : String := String.mk (List.replicate 40 '-')

/-- `ProcessManager._check_running`: every record still marked running
whose pid is no longer alive is flipped to `completed` (exit code left
unset); the index is saved if any record was flipped. -/
def checkRunning (s : MgrState) : MgrState :=
  let ps := s.processes.map
    (fun pr => if pr.2.status = "running" ∧ pr.2.pid ∉ s.osAlive
      then (pr.1, { pr.2 with status := "completed" }) else pr)
  { s with processes := ps,
           persisted :=
             if s.processes.any (fun pr =>
                 decide (pr.2.status = "running" ∧ pr.2.pid ∉ s.osAlive))
             then ps else s.persisted }

/-- The collision-resolving suffix search of `ProcessManager.run`
(`base_1`, `base_2`, ... until a free id is found); `fuel` bounds the
search and is called with more candidates than existing keys, so the
fallback is never reached. -/
def freshIdAux (keys : List String) (base : String) : Nat → Nat → String
  | 0, c => base ++ "_" ++ toString c
  | fuel + 1, c =>
      let cand := base ++ "_" ++ toString c
      if cand ∈ keys then freshIdAux keys base fuel (c + 1) else cand

/-- Id assignment in `ProcessManager.run`: the requested (or generated)
id, suffixed `_1`, `_2`, ... on collision. -/
def freshId (keys : List String) (base : String) : String :=
  if base ∈ keys then freshIdAux keys base (keys.length + 1) 1 else base

/-- `ProcessManager.run`: creates the output log with its header, spawns
the command in its own process group (the new pid becomes alive), stores
a record with status `running` and no exit code, and persists.  `idReq`
is the optional `name` argument, `genId` the id `_generate_id` would
produce, `ts` the `datetime.now()` timestamp and `pid` the spawned pid. -/
def runOp (s : MgrState) (idReq : Option String) (genId ts cwd command : String)
    (cb : Bool) (pid : Nat) : ProcInfo × MgrState :=
  let i := freshId (s.processes.map Prod.fst) (idReq.getD genId)
  let header := "$ " ++ command ++ "\n" ++ "Started: " ++ ts ++ "\n"
      ++ "CWD: " ++ cwd ++ "\n" ++ dashes ++ "\n"
  let proc : ProcInfo :=
    { id := i, pid := pid, command := command, started_at := ts,
      status := "running", exit_code := none, cwd := cwd,
      callback := cb, reviewed := false }
  let ps := aset s.processes i proc
  (proc,
   { s with processes := ps, persisted := ps,
            logs := aset s.logs i header,
            osAlive := s.osAlive ++ [pid] })

/-- `ProcessManager._capture_output` at process exit: the captured output
`out` has been appended to the log; once the process exits with code
`rc`, if the job is still tracked its record gets the exit code and
status `completed`/`failed`, the index is saved and a trailer is
appended. -/
def captureExit (s : MgrState) (i : String) (out : String) (rc : Int)
    (ts : String) : MgrState :=
  let s1 := appendLog s i out
  match alookup s1.processes i with
  | none => s1
  | some proc =>
      let proc1 := { proc with
        exit_code := some rc,
        status := if rc = 0 then "completed" else "failed" }
      let ps := aset s1.processes i proc1
      let s2 := { s1 with processes := ps, persisted := ps }
      appendLog s2 i
        (dashes ++ "\n" ++ "Exited: " ++ ts ++ "\n"
          ++ "Exit code: " ++ toString rc ++ "\n")

/-- `ProcessManager.kill`: false for an unknown or non-running job; for a
running job, signalling the process group succeeds iff the pid is alive,
in which case the record becomes `killed` (persisted, trailer appended)
and the call returns true; `ProcessLookupError`/`PermissionError` flips
the record to `completed` (persisted) and returns false. -/
def killOp (s : MgrState) (i : String) (ts : String) : Bool × MgrState :=
  match alookup s.processes i with
  | none => (false, s)
  | some proc =>
      if proc.status ≠ "running" then (false, s)
      else if proc.pid ∈ s.osAlive then
        let ps := aset s.processes i { proc with status := "killed" }
        let s1 := { s with processes := ps, persisted := ps,
                           signalled := s.signalled ++ [proc.pid] }
        (true, appendLog s1 i (dashes ++ "\n" ++ "Killed: " ++ ts ++ "\n"))
      else
        let ps := aset s.processes i { proc with status := "completed" }
        (false, { s with processes := ps, persisted := ps })

/-- `ProcessManager.get_status`: reconciles a running record against
liveness (flipping it to `completed`, again with no exit code) and
returns the record. -/
def getStatus (s : MgrState) (i : String) : Option ProcInfo × MgrState :=
  match alookup s.processes i with
  | none => (none, s)
  | some proc =>
      if proc.status = "running" ∧ proc.pid ∉ s.osAlive then
        let proc1 := { proc with status := "completed" }
        let ps := aset s.processes i proc1
        (some proc1, { s with processes := ps, persisted := ps })
      else (some proc, s)

/-- Python `str.splitlines`-with-newlines as used by `readlines()`:
splits after each newline character, keeping the newline. -/
def splitKeepNL : List Char → String → List String
  | [], acc => if acc = "" then [] else [acc]
  | c :: cs, acc =>
      if c = '\n' then (acc.push c) :: splitKeepNL cs ""
      else splitKeepNL cs (acc.push c)

/-- `ProcessManager.get_output`: the last `tail` lines of the log (all of
it when `tail = 0` or the log is short), or `none` if the log file does
not exist. -/
def getOutput (s : MgrState) (i : String) (tail : Nat) : Option String :=
  match alookup s.logs i with
  | none => none
  | some content =>
      let ls := splitKeepNL content.data ""
      if tail > 0 ∧ ls.length > tail then
        some (String.join (ls.drop (ls.length - tail)))
      else some content

/-- `ProcessManager.list_processes`: reconciles liveness via
`_check_running`, then returns all records (or only the running ones). -/
def listProcesses (s : MgrState) (includeFinished : Bool) :
    List ProcInfo × MgrState :=
  let s1 := checkRunning s
  (if includeFinished then s1.processes.map Prod.snd
   else (s1.processes.filter (fun pr => decide (pr.2.status = "running"))).map Prod.snd,
   s1)

/-- `ProcessManager.cleanup`: removes every record whose status is not
`running` (all records when `keep = false`) together with its log file,
persists, and returns the number of records removed.  Deleting a batch
of keys from a unique-key dict is a filter. -/
def cleanup (s : MgrState) (keep : Bool) : Nat × MgrState :=
  let toRemove := (s.processes.filter
      (fun pr => decide (pr.2.status ≠ "running" ∨ ¬keep))).map Prod.fst
  let ps := s.processes.filter (fun pr => decide (pr.2.status = "running" ∧ keep))
  let lg := s.logs.filter (fun e => decide (e.1 ∉ toRemove))
  (toRemove.length, { s with processes := ps, persisted := ps, logs := lg })

/-- `ProcessManager.mark_reviewed`: unconditionally sets the reviewed
flag of any tracked job and persists. -/
def markReviewed (s : MgrState) (i : String) : Bool × MgrState :=
  match alookup s.processes i with
  | none => (false, s)
  | some proc =>
      let ps := aset s.processes i { proc with reviewed := true }
      (true, { s with processes := ps, persisted := ps })

/-- `ProcessManager.get_pending_callbacks`: after `_check_running`, the
records with callback set, not yet reviewed and no longer running. -/
def pendingCallbacks (s : MgrState) : List ProcInfo × MgrState :=
  let s1 := checkRunning s
  ((s1.processes.filter (fun pr =>
      decide (pr.2.callback = true ∧ pr.2.reviewed = false ∧ pr.2.status ≠ "running"))).map Prod.snd,
   s1)

/-! ## Invariants and concrete states -/

/-- Record-level invariant: an exit code is present only on records whose
status is `completed` or `failed` (so `running` and `killed` records
carry no exit code). -/
def ExitOk (p : ProcInfo) : Prop :=
  p.exit_code ≠ none → p.status = "completed" ∨ p.status = "failed"

/-- Store-level form of `ExitOk` over all tracked records. -/
def ExitInv (s : MgrState) : Prop := ∀ pr ∈ s.processes, ExitOk pr.2

/-- The biconditional invariant exactly as the specification states it:
exit code present iff status is `completed` or `failed`. -/
def ExitIff (p : ProcInfo) : Prop :=
  p.exit_code ≠ none ↔ (p.status = "completed" ∨ p.status = "failed")

/-- Store-level form of `ExitIff` over all tracked records. -/
def ExitIffInv (s : MgrState) : Prop := ∀ pr ∈ s.processes, ExitIff pr.2

/-- Record-level invariant: the reviewed flag is set only on records that
are no longer running. -/
def ReviewOk (p : ProcInfo) : Prop := p.reviewed = true → p.status ≠ "running"

/-- Store-level form of `ReviewOk` over all tracked records. -/
def ReviewInv (s : MgrState) : Prop := ∀ pr ∈ s.processes, ReviewOk pr.2

/-- A fresh manager with an empty store (new config directory). -/
def emptyMgr : MgrState := ⟨[], [], [], [], []⟩

/-- The store right after launching one background job named `job1`. -/
def launched : MgrState :=
  (runOp emptyMgr (some "job1") "abc123" "2024-05-01T10:00:00" "/home/u"
    "sleep 5" false 4242).2

/-- The same store after the external process has exited on its own
(before any capture-worker update ran). -/
def launchedDead : MgrState := { launched with osAlive := [] }

/-- A tracked record with status `running`. -/
def runningRec : ProcInfo :=
  { id := "j", pid := 5, command := "make test", started_at := "t0",
    status := "running" }

/-- A tracked record that completed with exit code 0. -/
def finishedRec : ProcInfo :=
  { id := "d", pid := 6, command := "ls", started_at := "t0",
    status := "completed", exit_code := some 0 }

/-- A store with one running job (pid alive) and one finished job, each
with its output log. -/
def twoJobs : MgrState :=
  ⟨[("j", runningRec), ("d", finishedRec)],
   [("j", runningRec), ("d", finishedRec)],
   [("j", "logj"), ("d", "logd")], [5], []⟩

/-- `twoJobs` after the running job's process has died at the OS level. -/
def twoJobsDead : MgrState := { twoJobs with osAlive := [] }

/-! ## Helper lemmas -/

theorem alookup_aset_self {α : Type} (l : List (String × α)) (k : String) (v : α) :
    alookup (aset l k v) k = some v := by
  induction l with
  | nil => simp [aset, alookup]
  | cons hd tl ih =>
      obtain ⟨k1, v1⟩ := hd
      by_cases h : k1 = k
      · simp [aset, h, alookup]
      · simp [aset, h, alookup, ih]

theorem mem_aset {α : Type} {l : List (String × α)} {k : String} {v : α}
    {x : String × α} (hx : x ∈ aset l k v) : x = (k, v) ∨ x ∈ l := by
  induction l with
  | nil => simpa [aset] using hx
  | cons hd tl ih =>
      obtain ⟨k1, v1⟩ := hd
      by_cases h : k1 = k
      · simp [aset, h] at hx
        rcases hx with h1 | h1
        · exact Or.inl (by simp [h1])
        · exact Or.inr (by simp [h1])
      · simp [aset, h] at hx
        rcases hx with h1 | h1
        · exact Or.inr (by simp [h1])
        · rcases ih h1 with h2 | h2
          · exact Or.inl h2
          · exact Or.inr (by simp [h2])

theorem alookup_mem {α : Type} {l : List (String × α)} {k : String} {v : α}
    (h : alookup l k = some v) : (k, v) ∈ l := by
  induction l with
  | nil => simp [alookup] at h
  | cons hd tl ih =>
      obtain ⟨k1, v1⟩ := hd
      by_cases hk : k1 = k
      · subst hk
        simp [alookup] at h
        simp [h]
      · simp [alookup, hk] at h
        exact List.mem_cons_of_mem _ (ih h)

theorem alookup_filter_keep {α : Type} (l : List (String × α))
    (p : String × α → Bool) (k : String)
    (h : ∀ e ∈ l, e.1 = k → p e = true) :
    alookup (l.filter p) k = alookup l k := by
  induction l with
  | nil => rfl
  | cons hd tl ih =>
      obtain ⟨k1, v1⟩ := hd
      have ihtl := ih (fun e he hk => h e (List.mem_cons_of_mem _ he) hk)
      by_cases hk : k1 = k
      · subst hk
        have hp : p (k1, v1) = true := h _ (List.mem_cons_self _ _) rfl
        simp [List.filter_cons, hp, alookup]
      · by_cases hp : p (k1, v1) = true
        · simp [List.filter_cons, hp, alookup, hk, ihtl]
        · simp [List.filter_cons, hp, alookup, hk, ihtl]

theorem alookup_filter_none {α : Type} (l : List (String × α))
    (p : String × α → Bool) (k : String)
    (h : ∀ e ∈ l, e.1 = k → p e = false) :
    alookup (l.filter p) k = none := by
  induction l with
  | nil => rfl
  | cons hd tl ih =>
      have ihtl := ih (fun e he hk => h e (List.mem_cons_of_mem _ he) hk)
      by_cases hk : hd.1 = k
      · have hp : p hd = false := h hd (List.mem_cons_self _ _) hk
        simp [List.filter_cons, hp, ihtl]
      · by_cases hp : p hd = true
        · obtain ⟨k1, v1⟩ := hd
          simp only at hk
          simp [List.filter_cons, hp, alookup, hk, ihtl]
        · simp [List.filter_cons, hp, ihtl]

theorem nodup_keys_eq {α : Type} {l : List (String × α)}
    (h : (l.map Prod.fst).Nodup) {k : String} {a b : α}
    (ha : (k, a) ∈ l) (hb : (k, b) ∈ l) : a = b := by
  induction l with
  | nil => simp at ha
  | cons hd tl ih =>
      simp only [List.map_cons, List.nodup_cons] at h
      rcases List.mem_cons.1 ha with ha1 | ha1 <;>
        rcases List.mem_cons.1 hb with hb1 | hb1
      · have hab : (k, a) = (k, b) := ha1.trans hb1.symm
        injection hab with h1 h2
      · exfalso
        apply h.1
        have hk : hd.1 = k := by rw [← ha1]
        rw [hk]
        simpa using List.mem_map_of_mem Prod.fst hb1
      · exfalso
        apply h.1
        have hk : hd.1 = k := by rw [← hb1]
        rw [hk]
        simpa using List.mem_map_of_mem Prod.fst ha1
      · exact ih h.2 ha1 hb1

theorem length_filter_split {α : Type} (l : List α) (p : α → Bool) :
    (l.filter p).length + (l.filter (fun a => !(p a))).length = l.length := by
  induction l with
  | nil => rfl
  | cons hd tl ih =>
      by_cases hp : p hd = true
      · simp [List.filter_cons, hp, ← ih]
        omega
      · simp only [Bool.not_eq_true] at hp
        simp [List.filter_cons, hp, ← ih]
        omega

theorem length_filter_mem_of_nodup (A B : List String)
    (hA : A.Nodup) (hB : B.Nodup) (hsub : ∀ x ∈ A, x ∈ B) :
    (B.filter (fun x => decide (x ∈ A))).length = A.length := by
  have hperm : List.Perm (B.filter (fun x => decide (x ∈ A))) A := by
    rw [List.perm_ext_iff_of_nodup (hB.filter _) hA]
    intro a
    simp only [List.mem_filter, decide_eq_true_eq]
    exact ⟨fun h => h.2, fun h => ⟨hsub a h, h⟩⟩
  exact hperm.length_eq

theorem formatToolUse_not_done (n : String) (i : ToolInput) :
    ∀ e ∈ formatToolUse n i, e.is_done = false := by
  unfold formatToolUse
  split_ifs <;> simp

theorem msgBlockEvents_not_done (b : MsgBlock) :
    ∀ e ∈ msgBlockEvents b, e.is_done = false := by
  cases b with
  | textBlock t =>
      simp only [msgBlockEvents]
      split_ifs <;> simp
  | toolUse n i => exact formatToolUse_not_done n i
  | otherBlock ty => simp [msgBlockEvents]

theorem userBlockEvents_not_done (b : UserBlock) :
    ∀ e ∈ userBlockEvents b, e.is_done = false := by
  cases b with
  | toolResult c =>
      simp only [userBlockEvents]
      split_ifs <;> simp
  | otherBlock ty => simp [userBlockEvents]

theorem parseStreamEvent_not_done (r : ProtoRecord) :
    ∀ e ∈ parseStreamEvent r, e.is_done = false := by
  cases r with
  | assistantMsg blocks =>
      intro e he
      rcases List.mem_flatMap.1 he with ⟨b, _, hb⟩
      exact msgBlockEvents_not_done b e hb
  | userMsg blocks =>
      intro e he
      rcases List.mem_flatMap.1 he with ⟨b, _, hb⟩
      exact userBlockEvents_not_done b e hb
  | toolUseEvt n i => exact formatToolUse_not_done n i
  | contentBlockStart bt n =>
      simp only [parseStreamEvent]
      split_ifs <;> simp
  | contentBlockDelta dt t =>
      simp only [parseStreamEvent]
      split_ifs <;> simp
  | contentBlockStop => simp [parseStreamEvent]
  | toolResultEvt c =>
      simp only [parseStreamEvent]
      split_ifs <;> simp
  | systemMsg m sub =>
      simp only [parseStreamEvent]
      split_ifs <;> simp
  | resultEvt r sub =>
      simp only [parseStreamEvent]
      split_ifs <;> simp
  | other ty sz =>
      simp only [parseStreamEvent]
      split_ifs <;> simp

theorem sendLoop_terminal (iAt : Option Nat) (lines : List RawLine) (k : Nat)
    (h1 : ∀ i, iAt = some i → k ≤ i) (h2 : iAt ≠ some (k + lines.length)) :
    (sendLoop iAt lines k).countP (fun e => e.is_done) = 1 ∧
    ∃ e, (sendLoop iAt lines k).getLast? = some e ∧ e.is_done = true := by
  induction lines generalizing k with
  | nil =>
      have hf : interruptedFlag iAt k = false := by
        cases iAt with
        | none => rfl
        | some i =>
            have hki := h1 i rfl
            have hne : i ≠ k := by
              intro he
              exact h2 (by simp [he])
            simp only [interruptedFlag, decide_eq_false_iff_not]
            omega
      simp [sendLoop, hf, doneEvent]
  | cons l rest ih =>
      by_cases hf : interruptedFlag iAt k = true
      · simp [sendLoop, hf, interruptedEvent]
      · have hf' : interruptedFlag iAt k = false := by
          simpa using hf
        have h1' : ∀ i, iAt = some i → k + 1 ≤ i := by
          intro i hi
          subst hi
          simp only [interruptedFlag, decide_eq_false_iff_not] at hf'
          omega
        have h2' : iAt ≠ some (k + 1 + rest.length) := by
          intro hcontr
          apply h2
          rw [hcontr]
          congr 1
          simp
          omega
        cases l with
        | blank =>
            simpa [sendLoop, hf'] using ih (k + 1) h1' h2'
        | plain s =>
            obtain ⟨hc, e, hl, hd⟩ := ih (k + 1) h1' h2'
            have hne : sendLoop iAt rest (k + 1) ≠ [] := by
              intro h0
              rw [h0] at hc
              simp at hc
            have hstep : sendLoop iAt (RawLine.plain s :: rest) k
                = ({ text := s ++ "\n" } : StreamEvent) :: sendLoop iAt rest (k + 1) := by
              simp [sendLoop, hf']
            rw [hstep]
            constructor
            · simp [List.countP_cons, hc]
            · refine ⟨e, ?_, hd⟩
              have hca : ({ text := s ++ "\n" } : StreamEvent) :: sendLoop iAt rest (k + 1)
                  = [({ text := s ++ "\n" } : StreamEvent)] ++ sendLoop iAt rest (k + 1) := rfl
              rw [hca, List.getLast?_append_of_ne_nil _ hne]
              exact hl
        | jsonScalar msg =>
            simp [sendLoop, hf']
        | record ev =>
            obtain ⟨hc, e, hl, hd⟩ := ih (k + 1) h1' h2'
            have hne : sendLoop iAt rest (k + 1) ≠ [] := by
              intro h0
              rw [h0] at hc
              simp at hc
            have hz : (parseStreamEvent ev).countP (fun e => e.is_done) = 0 := by
              rw [List.countP_eq_zero]
              intro a ha
              simp [parseStreamEvent_not_done ev a ha]
            have hstep : sendLoop iAt (RawLine.record ev :: rest) k
                = parseStreamEvent ev ++ sendLoop iAt rest (k + 1) := by
              simp [sendLoop, hf']
            rw [hstep]
            constructor
            · simp [List.countP_append, hc, hz]
            · refine ⟨e, ?_, hd⟩
              rw [List.getLast?_append_of_ne_nil _ hne]
              exact hl

/-! ## Claim theorems: streaming decoder and driver -/

/-- Claim C2 (amended): every call to `send` yields exactly one terminal
event (done, error or interrupted), and it is last - for spawn failures,
for interrupts observed at a line boundary and for uninterrupted runs -
provided the interrupt flag is not first observed at the post-stream
completion check (`iAt ≠ some lines.length`); in that one window the
code yields no terminal event at all. -/
theorem send_exactly_one_terminal (sp : SpawnResult) (iAt : Option Nat)
    (h : ∀ lines, sp = SpawnResult.ok lines → iAt ≠ some lines.length) :
    (send sp iAt).countP (fun e => e.is_done) = 1 ∧
    ∃ e, (send sp iAt).getLast? = some e ∧ e.is_done = true := by
  cases sp with
  | ok lines =>
      exact sendLoop_terminal iAt lines 0 (fun i _ => Nat.zero_le i)
        (by simpa using h lines rfl)
  | fileNotFound => simp [send]
  | spawnError msg => simp [send]

/-- Witness for C2: a concrete two-line uninterrupted session. -/
theorem send_exactly_one_terminal_witness :
    (send (SpawnResult.ok [RawLine.plain "hi",
        RawLine.record (ProtoRecord.contentBlockDelta "text_delta" "x")]) none).countP
      (fun e => e.is_done) = 1 ∧
    ∃ e, (send (SpawnResult.ok [RawLine.plain "hi",
        RawLine.record (ProtoRecord.contentBlockDelta "text_delta" "x")]) none).getLast?
      = some e ∧ e.is_done = true :=
  send_exactly_one_terminal _ none (by intro lines hl; cases hl; decide)

/-- Counterexample for C2 as stated: if `interrupt()` sets the flag after
the final line was consumed but before the completion check (here: no
output lines, flag observed at checkpoint 0, which is the post-stream
check), `send` yields the non-terminal events only - zero terminal
events, not exactly one. -/
theorem send_missed_interrupt_no_terminal :
    send (SpawnResult.ok [RawLine.plain "hi"]) (some 1) = [{ text := "hi\n" }] ∧
    (send (SpawnResult.ok [RawLine.plain "hi"]) (some 1)).countP
      (fun e => e.is_done) = 0 :=
  ⟨rfl, rfl⟩

/-- Claim C3 (amended): a line that is not valid JSON is emitted verbatim
(after the loop's `strip()`) as one plain event with a trailing newline,
followed only by the terminal done event; a structured text-delta unit
with payload "hello" yields exactly one plain event with text "hello".
(The original claim extends the first part to every line that is not a
structured record; see the counterexample for lines that are valid JSON
but not objects.) -/
theorem decoder_plain_and_text_delta (s : String) :
    send (SpawnResult.ok [RawLine.plain s]) none
      = [{ text := s ++ "\n" }, doneEvent] ∧
    send (SpawnResult.ok [RawLine.record
        (ProtoRecord.contentBlockDelta "text_delta" "hello")]) none
      = [{ text := "hello" }, doneEvent] :=
  ⟨rfl, rfl⟩

/-- Counterexample for C3 as stated: the line `123` does not parse as a
structured JSON record, yet it is not emitted verbatim as a plain event:
`json.loads` succeeds with a non-object, `event.get` raises
`AttributeError`, and the generic handler turns the whole stream into a
single error event. -/
theorem decoder_json_scalar_not_verbatim :
    send (SpawnResult.ok
        [RawLine.jsonScalar "'int' object has no attribute 'get'"]) none
      = [{ text := "Error: 'int' object has no attribute 'get'",
           is_error := true, is_done := true }] ∧
    (send (SpawnResult.ok
        [RawLine.jsonScalar "'int' object has no attribute 'get'"]) none).countP
      (fun e => !e.is_tool_call && !e.is_error) = 0 :=
  ⟨rfl, rfl⟩

/-- Claim C6: a tool-result record whose content exceeds 2000 characters
yields exactly one tool-call event whose text is the first 2000
characters of the content followed by the explicit `(truncated)` marker. -/
theorem tool_result_truncated (c : String) (h : c.length > 2000) :
    parseStreamEvent (ProtoRecord.toolResultEvt c)
      = [{ text := strTake c 2000 ++ "\n... (truncated)" ++ "\n",
           is_tool_call := true }] ∧
    (strTake c 2000).length ≤ 2000 := by
  have hne : c ≠ "" := by
    intro h0
    subst h0
    simp [String.length] at h
  constructor
  · simp [parseStreamEvent, hne, truncateContent, h]
  · simp [strTake]

/-- A 3000-character tool-result payload, as in the spec's test. -/
def bigContent : String := ⟨List.replicate 3000 'a'⟩

/-- Witness for C6 at the 3000-character payload. -/
theorem tool_result_truncated_witness :
    parseStreamEvent (ProtoRecord.toolResultEvt bigContent)
      = [{ text := strTake bigContent 2000 ++ "\n... (truncated)" ++ "\n",
           is_tool_call := true }] ∧
    (strTake bigContent 2000).length ≤ 2000 :=
  tool_result_truncated bigContent (by
    show 2000 < (String.mk (List.replicate 3000 'a')).length
    rw [String.length_mk, List.length_replicate]
    norm_num)

/-- Claim C9 (amended): a record whose discriminant is none of the known
kinds - the nine dispatched kinds, the three suppressed message
lifecycle kinds (`message_start`, `message_delta`, `message_stop`) and
the empty discriminant - yields exactly one debug event carrying the
discriminant and the serialized record capped at 200 characters. -/
theorem unknown_discriminant_debug (ty sz : String) (h1 : ty ≠ "")
    (h2 : ty ≠ "message_start") (h3 : ty ≠ "message_delta")
    (h4 : ty ≠ "message_stop") :
    parseStreamEvent (ProtoRecord.other ty sz)
      = [{ text := "[" ++ ty ++ "] " ++ strTake sz 200 ++ "\n",
           is_tool_call := true }] ∧
    (strTake sz 200).length ≤ 200 := by
  constructor
  · simp [parseStreamEvent, h1, h2, h3, h4]
  · simp [strTake]

/-- Witness for C9 at a concrete unknown discriminant. -/
theorem unknown_discriminant_debug_witness :
    parseStreamEvent (ProtoRecord.other "extra_event" "x")
      = [{ text := "[" ++ "extra_event" ++ "] " ++ strTake "x" 200 ++ "\n",
           is_tool_call := true }] ∧
    (strTake "x" 200).length ≤ 200 :=
  unknown_discriminant_debug "extra_event" "x" (by decide) (by decide)
    (by decide) (by decide)

/-- Counterexample for C9 as stated: `message_start` is dispatched by none
of the decoder's known-kind arms (and does not appear among the spec's
known kinds), yet it yields no debug event at all. -/
theorem message_start_suppressed :
    parseStreamEvent (ProtoRecord.other "message_start" "x") = [] := rfl

/-! ## Claim theorems: job supervisor -/

theorem exitOk_aset {l : List (String × ProcInfo)} {i : String} {v : ProcInfo}
    (h : ∀ pr ∈ l, ExitOk pr.2) (hv : ExitOk v) :
    ∀ pr ∈ aset l i v, ExitOk pr.2 := by
  intro pr hpr
  rcases mem_aset hpr with h1 | h1
  · rw [h1]
    exact hv
  · exact h pr h1

theorem exitInv_runOp (s : MgrState) (h : ExitInv s) (idReq : Option String)
    (genId ts cwd cmd : String) (cb : Bool) (pid : Nat) :
    ExitInv (runOp s idReq genId ts cwd cmd cb pid).2 := by
  intro pr hpr
  simp only [runOp] at hpr
  rcases mem_aset hpr with h1 | h1
  · rw [h1]
    intro hne
    simp at hne
  · exact h pr h1

theorem exitInv_captureExit (s : MgrState) (h : ExitInv s) (i out : String)
    (rc : Int) (ts : String) : ExitInv (captureExit s i out rc ts) := by
  cases hm : alookup (appendLog s i out).processes i with
  | none =>
      simp only [captureExit, hm]
      exact h
  | some proc =>
      simp only [captureExit, hm]
      intro pr hpr
      simp only [appendLog] at hpr
      refine exitOk_aset (fun qr hqr => h qr hqr) ?_ pr hpr
      intro _
      by_cases hrc : rc = 0 <;> simp [hrc]

theorem exitInv_killOp (s : MgrState) (h : ExitInv s) (i ts : String) :
    ExitInv (killOp s i ts).2 := by
  cases hm : alookup s.processes i with
  | none =>
      simp only [killOp, hm]
      exact h
  | some proc =>
      simp only [killOp, hm]
      by_cases hst : proc.status ≠ "running"
      · rw [if_pos hst]
        exact h
      · rw [if_neg hst]
        have hrun : proc.status = "running" := not_not.1 hst
        have hnone : proc.exit_code = none := by
          by_contra hne
          rcases h (i, proc) (alookup_mem hm) hne with hc | hc <;>
            rw [hrun] at hc <;> exact absurd hc (by decide)
        by_cases hal : proc.pid ∈ s.osAlive
        · rw [if_pos hal]
          intro pr hpr
          simp only [appendLog] at hpr
          refine exitOk_aset (fun qr hqr => h qr hqr) ?_ pr hpr
          intro hne
          exact absurd hnone hne
        · rw [if_neg hal]
          intro pr hpr
          refine exitOk_aset (fun qr hqr => h qr hqr) ?_ pr hpr
          intro _
          left
          rfl

theorem exitInv_checkRunning (s : MgrState) (h : ExitInv s) :
    ExitInv (checkRunning s) := by
  intro pr hpr
  simp only [checkRunning] at hpr
  rcases List.mem_map.1 hpr with ⟨qr, hqr, heq⟩
  by_cases hq : qr.2.status = "running" ∧ qr.2.pid ∉ s.osAlive
  · rw [if_pos hq] at heq
    rw [← heq]
    intro _
    left
    rfl
  · rw [if_neg hq] at heq
    rw [← heq]
    exact h qr hqr

theorem exitInv_getStatus (s : MgrState) (h : ExitInv s) (i : String) :
    ExitInv (getStatus s i).2 := by
  cases hm : alookup s.processes i with
  | none =>
      simp only [getStatus, hm]
      exact h
  | some proc =>
      simp only [getStatus, hm]
      by_cases hq : proc.status = "running" ∧ proc.pid ∉ s.osAlive
      · rw [if_pos hq]
        intro pr hpr
        refine exitOk_aset (fun qr hqr => h qr hqr) ?_ pr hpr
        intro _
        left
        rfl
      · rw [if_neg hq]
        exact h

theorem exitInv_cleanup (s : MgrState) (h : ExitInv s) (keep : Bool) :
    ExitInv (cleanup s keep).2 := by
  intro pr hpr
  simp only [cleanup] at hpr
  exact h pr (List.mem_of_mem_filter hpr)

theorem exitInv_markReviewed (s : MgrState) (h : ExitInv s) (i : String) :
    ExitInv (markReviewed s i).2 := by
  cases hm : alookup s.processes i with
  | none =>
      simp only [markReviewed, hm]
      exact h
  | some proc =>
      simp only [markReviewed, hm]
      intro pr hpr
      refine exitOk_aset (fun qr hqr => h qr hqr) ?_ pr hpr
      intro hne
      exact h (i, proc) (alookup_mem hm) hne

/-- Claim C1 (amended): after every supervisor operation, every tracked
record has an exit code only if its status is `completed` or `failed`
(so running and killed records never carry one).  The converse fails:
the liveness-reconciliation paths (`_check_running` in list/get-status)
and `kill`'s lookup-failure path produce `completed` records with no
exit code - see the counterexample. -/
theorem exit_code_only_if_finished (s : MgrState) (h : ExitInv s) :
    (∀ idReq genId ts cwd cmd cb pid,
        ExitInv (runOp s idReq genId ts cwd cmd cb pid).2) ∧
    (∀ i out rc ts, ExitInv (captureExit s i out rc ts)) ∧
    (∀ i ts, ExitInv (killOp s i ts).2) ∧
    ExitInv (checkRunning s) ∧
    (∀ i, ExitInv (getStatus s i).2) ∧
    (∀ b, ExitInv (listProcesses s b).2) ∧
    (∀ keep, ExitInv (cleanup s keep).2) ∧
    (∀ i, ExitInv (markReviewed s i).2) := by
  refine ⟨fun idReq genId ts cwd cmd cb pid => exitInv_runOp s h idReq genId ts cwd cmd cb pid,
    fun i out rc ts => exitInv_captureExit s h i out rc ts,
    fun i ts => exitInv_killOp s h i ts,
    exitInv_checkRunning s h,
    fun i => exitInv_getStatus s h i,
    fun b => exitInv_checkRunning s h,
    fun keep => exitInv_cleanup s h keep,
    fun i => exitInv_markReviewed s h i⟩

/-- Witness for C1 at a concrete store: one launched job whose process
has died, reconciled by `_check_running`. -/
theorem exit_code_only_if_finished_witness :
    ExitInv (checkRunning launchedDead) :=
  (exit_code_only_if_finished launchedDead
    (by unfold ExitInv ExitOk; decide)).2.2.2.1

/-- Counterexample for C1 as stated: launching a job and letting its
process die, then reconciling liveness (as `list`/`get_status` do),
leaves a record with status `completed` and no exit code, violating the
claimed biconditional. -/
theorem exit_code_iff_fails_after_reconciliation :
    ¬ ExitIffInv (checkRunning launchedDead) := by
  unfold ExitIffInv ExitIff
  decide

/-- `ReviewOk` is preserved by `aset` with a `ReviewOk` value. -/
theorem reviewOk_aset {l : List (String × ProcInfo)} {i : String} {v : ProcInfo}
    (h : ∀ pr ∈ l, ReviewOk pr.2) (hv : ReviewOk v) :
    ∀ pr ∈ aset l i v, ReviewOk pr.2 := by
  intro pr hpr
  rcases mem_aset hpr with h1 | h1
  · rw [h1]
    exact hv
  · exact h pr h1

theorem reviewInv_runOp (s : MgrState) (h : ReviewInv s) (idReq : Option String)
    (genId ts cwd cmd : String) (cb : Bool) (pid : Nat) :
    ReviewInv (runOp s idReq genId ts cwd cmd cb pid).2 := by
  intro pr hpr
  simp only [runOp] at hpr
  rcases mem_aset hpr with h1 | h1
  · rw [h1]
    intro hrev
    simp at hrev
  · exact h pr h1

theorem reviewInv_captureExit (s : MgrState) (h : ReviewInv s) (i out : String)
    (rc : Int) (ts : String) : ReviewInv (captureExit s i out rc ts) := by
  cases hm : alookup (appendLog s i out).processes i with
  | none =>
      simp only [captureExit, hm]
      exact h
  | some proc =>
      simp only [captureExit, hm]
      intro pr hpr
      simp only [appendLog] at hpr
      refine reviewOk_aset (fun qr hqr => h qr hqr) ?_ pr hpr
      intro _
      by_cases hrc : rc = 0 <;> simp [hrc]

theorem reviewInv_killOp (s : MgrState) (h : ReviewInv s) (i ts : String) :
    ReviewInv (killOp s i ts).2 := by
  cases hm : alookup s.processes i with
  | none =>
      simp only [killOp, hm]
      exact h
  | some proc =>
      simp only [killOp, hm]
      by_cases hst : proc.status ≠ "running"
      · rw [if_pos hst]
        exact h
      · rw [if_neg hst]
        by_cases hal : proc.pid ∈ s.osAlive
        · rw [if_pos hal]
          intro pr hpr
          simp only [appendLog] at hpr
          refine reviewOk_aset (fun qr hqr => h qr hqr) ?_ pr hpr
          intro _
          simp
        · rw [if_neg hal]
          intro pr hpr
          refine reviewOk_aset (fun qr hqr => h qr hqr) ?_ pr hpr
          intro _
          simp

theorem reviewInv_checkRunning (s : MgrState) (h : ReviewInv s) :
    ReviewInv (checkRunning s) := by
  intro pr hpr
  simp only [checkRunning] at hpr
  rcases List.mem_map.1 hpr with ⟨qr, hqr, heq⟩
  by_cases hq : qr.2.status = "running" ∧ qr.2.pid ∉ s.osAlive
  · rw [if_pos hq] at heq
    rw [← heq]
    intro _
    simp
  · rw [if_neg hq] at heq
    rw [← heq]
    exact h qr hqr

theorem reviewInv_getStatus (s : MgrState) (h : ReviewInv s) (i : String) :
    ReviewInv (getStatus s i).2 := by
  cases hm : alookup s.processes i with
  | none =>
      simp only [getStatus, hm]
      exact h
  | some proc =>
      simp only [getStatus, hm]
      by_cases hq : proc.status = "running" ∧ proc.pid ∉ s.osAlive
      · rw [if_pos hq]
        intro pr hpr
        refine reviewOk_aset (fun qr hqr => h qr hqr) ?_ pr hpr
        intro _
        simp
      · rw [if_neg hq]
        exact h

theorem reviewInv_cleanup (s : MgrState) (h : ReviewInv s) (keep : Bool) :
    ReviewInv (cleanup s keep).2 := by
  intro pr hpr
  simp only [cleanup] at hpr
  exact h pr (List.mem_of_mem_filter hpr)

theorem reviewInv_markReviewed_guarded (s : MgrState) (h : ReviewInv s)
    (i : String) (p : ProcInfo) (hm : alookup s.processes i = some p)
    (hnr : p.status ≠ "running") : ReviewInv (markReviewed s i).2 := by
  simp only [markReviewed, hm]
  intro pr hpr
  refine reviewOk_aset (fun qr hqr => h qr hqr) ?_ pr hpr
  intro _
  exact hnr

/-- Claim C8 (amended): the invariant "reviewed implies not running" is
preserved by launch, capture-worker exit, kill, liveness reconciliation
(check/get-status/list) and cleanup, and by `markReviewed` whenever it is
applied to a job that is not running (as the conversation loop does,
calling it only on pending callbacks).  Unrestricted `markReviewed`
breaks it: applied to a running job it yields a record that is
simultaneously reviewed and running - see the counterexample. -/
theorem reviewed_only_if_not_running (s : MgrState) (h : ReviewInv s) :
    (∀ idReq genId ts cwd cmd cb pid,
        ReviewInv (runOp s idReq genId ts cwd cmd cb pid).2) ∧
    (∀ i out rc ts, ReviewInv (captureExit s i out rc ts)) ∧
    (∀ i ts, ReviewInv (killOp s i ts).2) ∧
    ReviewInv (checkRunning s) ∧
    (∀ i, ReviewInv (getStatus s i).2) ∧
    (∀ b, ReviewInv (listProcesses s b).2) ∧
    (∀ keep, ReviewInv (cleanup s keep).2) ∧
    (∀ i p, alookup s.processes i = some p → p.status ≠ "running" →
        ReviewInv (markReviewed s i).2) := by
  refine ⟨fun idReq genId ts cwd cmd cb pid =>
      reviewInv_runOp s h idReq genId ts cwd cmd cb pid,
    fun i out rc ts => reviewInv_captureExit s h i out rc ts,
    fun i ts => reviewInv_killOp s h i ts,
    reviewInv_checkRunning s h,
    fun i => reviewInv_getStatus s h i,
    fun b => reviewInv_checkRunning s h,
    fun keep => reviewInv_cleanup s h keep,
    fun i p hm hnr => reviewInv_markReviewed_guarded s h i p hm hnr⟩

/-- Witness for C8: marking the finished job of `twoJobs` reviewed keeps
the invariant. -/
theorem reviewed_only_if_not_running_witness :
    ReviewInv (markReviewed twoJobs "d").2 :=
  (reviewed_only_if_not_running twoJobs
      (by unfold ReviewInv ReviewOk; decide)).2.2.2.2.2.2.2
    "d" finishedRec (by decide) (by decide)

/-- Counterexample for C8 as stated: `mark_reviewed` checks only that the
id is tracked, so applied to the running job `job1` it produces a record
that is reviewed and still running. -/
theorem mark_reviewed_running_violates :
    ¬ ReviewInv (markReviewed launched "job1").2 := by
  unfold ReviewInv ReviewOk
  decide

theorem killOp_unknown (s : MgrState) (i ts : String)
    (hm : alookup s.processes i = none) : killOp s i ts = (false, s) := by
  simp only [killOp, hm]

theorem killOp_not_running (s : MgrState) (i ts : String) (p : ProcInfo)
    (hm : alookup s.processes i = some p) (hst : p.status ≠ "running") :
    killOp s i ts = (false, s) := by
  simp only [killOp, hm]
  rw [if_pos hst]

/-- Claim C4: on a running job whose OS process is alive, two successive
kills yield `true` then `false`, the second leaving the state untouched;
and kill on an unknown or non-running job returns `false` and changes
nothing. -/
theorem kill_true_then_false :
    (∀ (s : MgrState) (i ts ts' : String) (p : ProcInfo),
        alookup s.processes i = some p → p.status = "running" →
        p.pid ∈ s.osAlive →
        (killOp s i ts).1 = true ∧
        (killOp (killOp s i ts).2 i ts').1 = false ∧
        (killOp (killOp s i ts).2 i ts').2 = (killOp s i ts).2) ∧
    (∀ (s : MgrState) (i ts : String),
        (alookup s.processes i = none ∨
         ∃ p, alookup s.processes i = some p ∧ p.status ≠ "running") →
        (killOp s i ts).1 = false ∧ (killOp s i ts).2 = s) := by
  constructor
  · intro s i ts ts' p hm hrun hal
    have hst : ¬ p.status ≠ "running" := not_not.2 hrun
    have hstep : killOp s i ts = (true, appendLog
        { s with processes := aset s.processes i { p with status := "killed" },
                 persisted := aset s.processes i { p with status := "killed" },
                 signalled := s.signalled ++ [p.pid] } i
        (dashes ++ "\n" ++ "Killed: " ++ ts ++ "\n")) := by
      simp only [killOp, hm]
      rw [if_neg hst, if_pos hal]
    have hm2 : alookup (killOp s i ts).2.processes i
        = some { p with status := "killed" } := by
      rw [hstep]
      simp only [appendLog]
      exact alookup_aset_self s.processes i { p with status := "killed" }
    have hne : ({ p with status := "killed" } : ProcInfo).status ≠ "running" := by
      simp
    have hstep2 : killOp (killOp s i ts).2 i ts' = (false, (killOp s i ts).2) :=
      killOp_not_running (killOp s i ts).2 i ts' _ hm2 hne
    refine ⟨by rw [hstep], by rw [hstep2], by rw [hstep2]⟩
  · intro s i ts hd
    rcases hd with hnone | ⟨p, hm, hst⟩
    · rw [killOp_unknown s i ts hnone]
      exact ⟨rfl, rfl⟩
    · rw [killOp_not_running s i ts p hm hst]
      exact ⟨rfl, rfl⟩

/-- Witness for C4: both parts at the concrete `twoJobs` store. -/
theorem kill_true_then_false_witness :
    ((killOp twoJobs "j" "t1").1 = true ∧
     (killOp (killOp twoJobs "j" "t1").2 "j" "t2").1 = false ∧
     (killOp (killOp twoJobs "j" "t1").2 "j" "t2").2
       = (killOp twoJobs "j" "t1").2) ∧
    ((killOp twoJobs "nope" "t3").1 = false ∧
     (killOp twoJobs "nope" "t3").2 = twoJobs) :=
  ⟨kill_true_then_false.1 twoJobs "j" "t1" "t2" runningRec
      (by decide) (by decide) (by decide),
   kill_true_then_false.2 twoJobs "nope" "t3" (Or.inl (by decide))⟩

/-- Claim C5: kill on a record still marked running whose OS process has
vanished (`killpg` raises `ProcessLookupError`/`PermissionError`) sets
the record to `completed` (not `killed`), persists it, signals nothing
and returns `false`. -/
theorem kill_lookup_failure_completed (s : MgrState) (i ts : String)
    (p : ProcInfo) (hm : alookup s.processes i = some p)
    (hrun : p.status = "running") (hdead : p.pid ∉ s.osAlive) :
    (killOp s i ts).1 = false ∧
    alookup (killOp s i ts).2.processes i
      = some { p with status := "completed" } ∧
    (killOp s i ts).2.persisted = (killOp s i ts).2.processes ∧
    (killOp s i ts).2.signalled = s.signalled := by
  have hst : ¬ p.status ≠ "running" := not_not.2 hrun
  have hstep : killOp s i ts = (false,
      { s with processes := aset s.processes i { p with status := "completed" },
               persisted := aset s.processes i { p with status := "completed" } }) := by
    simp only [killOp, hm]
    rw [if_neg hst, if_neg hdead]
  rw [hstep]
  exact ⟨rfl, alookup_aset_self _ _ _, rfl, rfl⟩

/-- Witness for C5: the `twoJobs` store after the running job's process
died at the OS level. -/
theorem kill_lookup_failure_completed_witness :
    (killOp twoJobsDead "j" "t1").1 = false ∧
    alookup (killOp twoJobsDead "j" "t1").2.processes "j"
      = some { runningRec with status := "completed" } ∧
    (killOp twoJobsDead "j" "t1").2.persisted
      = (killOp twoJobsDead "j" "t1").2.processes ∧
    (killOp twoJobsDead "j" "t1").2.signalled = twoJobsDead.signalled :=
  kill_lookup_failure_completed twoJobsDead "j" "t1" runningRec
    (by decide) (by decide) (by decide)

/-- Normal form of `cleanup` with `keep = true`: non-running records are
removed, their log files deleted, and the count is the number of
non-running records. -/
theorem cleanup_keep_eq (s : MgrState) :
    cleanup s true
      = ((s.processes.filter (fun pr => decide (pr.2.status ≠ "running"))).length,
         { s with
           processes := s.processes.filter (fun pr => decide (pr.2.status = "running")),
           persisted := s.processes.filter (fun pr => decide (pr.2.status = "running")),
           logs := s.logs.filter (fun e => decide (e.1 ∉
             (s.processes.filter (fun pr => decide (pr.2.status ≠ "running"))).map Prod.fst)) }) := by
  have hpred1 : (fun pr : String × ProcInfo =>
        decide (pr.2.status ≠ "running" ∨ ¬True))
      = fun pr => decide (pr.2.status ≠ "running") := by
    funext pr
    simp
  have hpred2 : (fun pr : String × ProcInfo =>
        decide (pr.2.status = "running" ∧ True))
      = fun pr => decide (pr.2.status = "running") := by
    funext pr
    simp
  simp only [cleanup]
  rw [hpred1, hpred2]
  rw [List.length_map]

/-- Claim C7: `cleanup(keepRunning=true)` keeps exactly the running
records, leaves every running job's log untouched, and returns a count
equal both to the number of records removed and to the number of log
files deleted (assuming, as every reachable store satisfies, unique ids
and one log file per tracked job). -/
theorem cleanup_removes_exactly_nonrunning (s : MgrState)
    (hp : (s.processes.map Prod.fst).Nodup)
    (hl : (s.logs.map Prod.fst).Nodup)
    (hsub : ∀ pr ∈ s.processes, pr.1 ∈ s.logs.map Prod.fst) :
    (cleanup s true).2.processes
      = s.processes.filter (fun pr => decide (pr.2.status = "running")) ∧
    (∀ pr ∈ s.processes, pr.2.status = "running" →
        alookup (cleanup s true).2.logs pr.1 = alookup s.logs pr.1) ∧
    (cleanup s true).1
      = (s.processes.filter (fun pr => decide (pr.2.status ≠ "running"))).length ∧
    s.logs.length = (cleanup s true).2.logs.length + (cleanup s true).1 := by
  rw [cleanup_keep_eq]
  set K := (s.processes.filter (fun pr => decide (pr.2.status ≠ "running"))).map Prod.fst with hK
  have hKnodup : K.Nodup := by
    rw [hK]
    exact List.Nodup.sublist ((List.filter_sublist s.processes).map Prod.fst) hp
  have hKsub : ∀ x ∈ K, x ∈ s.logs.map Prod.fst := by
    intro x hx
    rw [hK] at hx
    rcases List.mem_map.1 hx with ⟨qr, hqr, rfl⟩
    exact hsub qr (List.mem_of_mem_filter hqr)
  have hnotmem : ∀ pr ∈ s.processes, pr.2.status = "running" → pr.1 ∉ K := by
    intro pr hpr hrun hmem
    rw [hK] at hmem
    rcases List.mem_map.1 hmem with ⟨qr, hqr, hq1⟩
    have hqmem : qr ∈ s.processes := List.mem_of_mem_filter hqr
    have hqne : qr.2.status ≠ "running" := by
      have hdec := (List.mem_filter.1 hqr).2
      simpa using hdec
    have h1 : (pr.1, qr.2) ∈ s.processes := by
      rw [← hq1]
      simpa using hqmem
    have h2 : (pr.1, pr.2) ∈ s.processes := by
      simpa using hpr
    have heq2 : qr.2 = pr.2 := nodup_keys_eq hp h1 h2
    exact hqne (by rw [heq2]; exact hrun)
  refine ⟨rfl, ?_, rfl, ?_⟩
  · intro pr hpr hrun
    apply alookup_filter_keep
    intro e _ hek
    have hnot : e.1 ∉ K := by
      rw [hek]
      exact hnotmem pr hpr hrun
    exact decide_eq_true hnot
  · have hsplit := length_filter_split s.logs (fun e => decide (e.1 ∉ K))
    have hcompl : (s.logs.filter (fun e => !(decide (e.1 ∉ K)))).length
        = (s.logs.filter (fun e => decide (e.1 ∈ K))).length := by
      congr 1
      apply List.filter_congr
      intro a _
      simp [decide_not]
    have hmap : ((s.logs.map Prod.fst).filter (fun k => decide (k ∈ K))).length
        = (s.logs.filter (fun e => decide (e.1 ∈ K))).length := by
      rw [List.filter_map, List.length_map]
      rfl
    have hcount := length_filter_mem_of_nodup K (s.logs.map Prod.fst) hKnodup hl hKsub
    have hKlen : K.length
        = (s.processes.filter (fun pr => decide (pr.2.status ≠ "running"))).length := by
      rw [hK, List.length_map]
    show s.logs.length
      = (s.logs.filter (fun e => decide (e.1 ∉ K))).length
        + (s.processes.filter (fun pr => decide (pr.2.status ≠ "running"))).length
    omega

/-- Witness for C7 at the concrete `twoJobs` store. -/
theorem cleanup_removes_exactly_nonrunning_witness :
    (cleanup twoJobs true).2.processes
      = twoJobs.processes.filter (fun pr => decide (pr.2.status = "running")) ∧
    (∀ pr ∈ twoJobs.processes, pr.2.status = "running" →
        alookup (cleanup twoJobs true).2.logs pr.1 = alookup twoJobs.logs pr.1) ∧
    (cleanup twoJobs true).1
      = (twoJobs.processes.filter (fun pr => decide (pr.2.status ≠ "running"))).length ∧
    twoJobs.logs.length
      = (cleanup twoJobs true).2.logs.length + (cleanup twoJobs true).1 :=
  cleanup_removes_exactly_nonrunning twoJobs (by decide) (by decide) (by decide)

/-- Normal form of `cleanup` with `keep = false`: every record is removed
together with its log; the OS-facing fields are untouched. -/
theorem cleanup_discard_eq (s : MgrState) :
    cleanup s false
      = ((s.processes.map Prod.fst).length,
         { s with
           processes := [],
           persisted := [],
           logs := s.logs.filter
             (fun e => decide (e.1 ∉ s.processes.map Prod.fst)) }) := by
  have hpred1 : (fun pr : String × ProcInfo =>
        decide (pr.2.status ≠ "running" ∨ ¬((false : Bool) = true)))
      = fun _ => true := by
    funext pr
    simp
  have hpred2 : (fun pr : String × ProcInfo =>
        decide (pr.2.status = "running" ∧ (false : Bool) = true))
      = fun _ => false := by
    funext pr
    simp
  simp only [cleanup]
  rw [hpred1, hpred2, List.filter_true, List.filter_false]

/-- Claim C10: `cleanup` is a pure bookkeeping operation: with
`keepRunning=false` it removes every record and log, including those of
running jobs, but signals no process and leaves the OS state alone; the
removed job's process stays alive, and kill, getOutput and list can no
longer reach it. -/
theorem cleanup_never_signals (s : MgrState) (pr : String × ProcInfo)
    (hmem : pr ∈ s.processes) (_hrun : pr.2.status = "running") :
    (cleanup s false).2.osAlive = s.osAlive ∧
    (cleanup s false).2.signalled = s.signalled ∧
    (cleanup s false).2.processes = [] ∧
    alookup (cleanup s false).2.logs pr.1 = none ∧
    (∀ ts, killOp (cleanup s false).2 pr.1 ts = (false, (cleanup s false).2)) ∧
    (∀ t, getOutput (cleanup s false).2 pr.1 t = none) ∧
    (∀ b, (listProcesses (cleanup s false).2 b).1 = []) := by
  rw [cleanup_discard_eq]
  have hkey : pr.1 ∈ s.processes.map Prod.fst := List.mem_map_of_mem Prod.fst hmem
  have hlogNone : alookup (s.logs.filter
      (fun e => decide (e.1 ∉ s.processes.map Prod.fst))) pr.1 = none := by
    apply alookup_filter_none
    intro e _ hek
    exact decide_eq_false (not_not_intro (by rw [hek]; exact hkey))
  refine ⟨rfl, rfl, rfl, ?_, ?_, ?_, ?_⟩
  · exact hlogNone
  · intro ts
    exact killOp_unknown _ pr.1 ts rfl
  · intro t
    show getOutput
      { s with
        processes := [],
        persisted := [],
        logs := s.logs.filter
          (fun e => decide (e.1 ∉ s.processes.map Prod.fst)) } pr.1 t = none
    simp only [getOutput, hlogNone]
  · intro b
    cases b <;> simp [listProcesses, checkRunning]

/-- Witness for C10 at the concrete `twoJobs` store and its running job. -/
theorem cleanup_never_signals_witness :
    (cleanup twoJobs false).2.osAlive = twoJobs.osAlive ∧
    (cleanup twoJobs false).2.signalled = twoJobs.signalled ∧
    (cleanup twoJobs false).2.processes = [] ∧
    alookup (cleanup twoJobs false).2.logs "j" = none ∧
    (∀ ts, killOp (cleanup twoJobs false).2 "j" ts
      = (false, (cleanup twoJobs false).2)) ∧
    (∀ t, getOutput (cleanup twoJobs false).2 "j" t = none) ∧
    (∀ b, (listProcesses (cleanup twoJobs false).2 b).1 = []) :=
  cleanup_never_signals twoJobs ("j", runningRec) (by decide) (by decide)

end Codeloom
